import Mathlib

/-!
Verification development for the `gen-rs` repository: a generational genetic
algorithm applied to a 0/1 knapsack (`src/knapsack.rs`, `src/main.rs`, subset
encoding over bit vectors) and a travelling-salesman problem (`src/tsp.rs`,
permutation encoding).

Modelling conventions, used throughout:

* A genome's encoding (`Genome.data`, a `Vec<usize>` or `Vec<u32>`) is a
  `List Nat`.  The item table and the capacity limit are passed explicitly.
* Every random draw of the Rust code (`rng.random_range`, `random_bool`,
  `choose_multiple_weighted`, `choose_multiple`) is abstracted into an explicit
  oracle argument: a list or function supplying the drawn values.  A drawn
  index is interpreted modulo the size of the range it is drawn from, so any
  oracle value denotes a legal draw.
* Fallible operations return `Option`: `none` models a Rust panic (an `unwrap`
  of `None`/`Err`, an out-of-bounds index, `random_range` on an empty range) or
  a loop that can consume randomness forever.
* TSP fitness is a sum of `f64` Euclidean distances.  Floating point is not
  embedded; instead the fitness of a tour is an abstract oracle `fit` into a
  linearly ordered commutative ring (`f64` total order, subtraction and
  comparison of fitness values are the only operations the engine performs on
  them).  Knapsack fitness is exact `u32` arithmetic, embedded as `Nat`
  (the example instances stay far below `2^32`, where `u32` and `Nat`
  arithmetic agree).
* `Vec::sort` is Rust's stable sort by the `Ord` instance.  For a total
  preorder a stable sort's output is unique (the sorted permutation in which
  ties keep their original order), and `List.insertionSort` with the same
  total preorder computes exactly that list, so it is used as the (kernel-
  computable) model of `Vec::sort`.
-/

namespace GenRs

/-!
## Model of `rand 0.9` weighted sampling

Both `Population::selection` implementations call
`IndexedRandom::choose_multiple_weighted(rng, amount, weight)` and `unwrap` the
result.  Per the rand 0.9 semantics this samples WITHOUT replacement:

* the number of drawn elements is `min amount items.length` (the requested
  amount is clamped to the slice length, as in `choose_multiple`);
* a negative (or NaN) weight is a `WeightError::InvalidWeight`;
* zero-weighted elements are never picked, and if fewer than the (clamped)
  amount of weights are positive the draw fails with
  `WeightError::InsufficientNonZero`;
* otherwise the draw yields the clamped amount of elements from distinct
  positions.

The Efraimidis–Spirakis random keys are abstracted into the `picks` oracle:
at each step the next pick (modulo the number of remaining candidates) names
the candidate removed and drawn.  `none` models an `Err` result (which the
callers turn into a panic by `unwrap`).
-/

/-- Draw `amount` elements from the candidate list `elig`, without
replacement, the `k`-th draw being chosen by `picks[k]` modulo the number of
remaining candidates.  Fails iff the candidates run out. -/
def sampleGo {β : Type} : Nat → List Nat → List β → Option (List β)
  | 0, _, _ => some []
  | amount + 1, picks, elig =>
    match elig with
    | [] => none
    | e :: es =>
      match sampleGo amount picks.tail ((e :: es).eraseIdx (picks.headI % (e :: es).length)) with
      | none => none
      | some rest => some ((e :: es).getD (picks.headI % (e :: es).length) e :: rest)

/-- Model of rand 0.9 `choose_multiple_weighted` (see the section comment):
weighted sampling without replacement of `min amount items.length` elements,
`none` on an invalid (negative) weight or on fewer positive weights than the
clamped amount. -/
def chooseMultipleWeighted {α β : Type} [LinearOrderedCommRing α]
    (w : β → α) (picks : List Nat) (items : List β) (amount : Nat) : Option (List β) :=
  if items.any fun b => decide (w b < 0) then none
  else
    let elig := items.filter fun b => decide (0 < w b)
    if elig.length < min amount items.length then none
    else sampleGo (min amount items.length) picks elig

theorem sampleGo_spec {β : Type} [DecidableEq β] :
    ∀ (amount : Nat) (picks : List Nat) (elig : List β), amount ≤ elig.length →
      ∃ l, sampleGo amount picks elig = some l ∧ l.length = amount ∧ l.Subperm elig
  | 0, _, elig, _ => ⟨[], rfl, rfl, List.nil_subperm⟩
  | amount + 1, picks, [], h => absurd h (by simp)
  | amount + 1, picks, e :: es, h => by
    have hlen : 0 < (e :: es).length := by simp
    have hk : picks.headI % (e :: es).length < (e :: es).length := Nat.mod_lt _ hlen
    have herase : amount ≤ ((e :: es).eraseIdx (picks.headI % (e :: es).length)).length := by
      rw [List.length_eraseIdx, if_pos hk]
      omega
    obtain ⟨rest, hrest, hrlen, hrsub⟩ :=
      sampleGo_spec amount picks.tail ((e :: es).eraseIdx (picks.headI % (e :: es).length)) herase
    refine ⟨(e :: es).getD (picks.headI % (e :: es).length) e :: rest, ?_, by simp [hrlen], ?_⟩
    · simp only [sampleGo, hrest]
    · rw [List.getD_eq_getElem _ _ hk]
      have hperm : (e :: es).Perm
          ((e :: es)[picks.headI % (e :: es).length] ::
            (e :: es).eraseIdx (picks.headI % (e :: es).length)) :=
        (List.perm_cons_erase (List.getElem_mem hk)).trans
          ((List.erase_getElem hk).cons _)
      obtain ⟨m, hm1, hm2⟩ := hrsub
      exact List.Subperm.trans ⟨_ :: m, hm1.cons _, hm2.cons₂ _⟩ hperm.symm.subperm

theorem chooseMultipleWeighted_of_all_pos {α β : Type} [LinearOrderedCommRing α] [DecidableEq β]
    (w : β → α) (picks : List Nat) (items : List β) (amount : Nat)
    (hpos : ∀ b ∈ items, 0 < w b) :
    ∃ l, chooseMultipleWeighted w picks items amount = some l ∧
      l.length = min amount items.length ∧ l.Subperm items := by
  have hany : (items.any fun b => decide (w b < 0)) = false := by
    simp only [List.any_eq_false, decide_eq_true_eq]
    exact fun b hb => not_lt_of_lt (hpos b hb)
  have hfilter : (items.filter fun b => decide (0 < w b)) = items :=
    List.filter_eq_self.mpr fun b hb => decide_eq_true (hpos b hb)
  have hle : min amount items.length ≤ items.length := Nat.min_le_right _ _
  obtain ⟨l, hl, hlen, hsub⟩ := sampleGo_spec (min amount items.length) picks items hle
  refine ⟨l, ?_, hlen, hsub⟩
  simp only [chooseMultipleWeighted, hany, Bool.false_eq_true, if_false, hfilter]
  rw [if_neg (by omega)]
  exact hl

theorem chooseMultipleWeighted_of_insufficient {α β : Type} [LinearOrderedCommRing α]
    (w : β → α) (picks : List Nat) (items : List β) (amount : Nat)
    (h : (items.filter fun b => decide (0 < w b)).length < min amount items.length) :
    chooseMultipleWeighted w picks items amount = none := by
  by_cases hany : (items.any fun b => decide (w b < 0)) = true
  · simp only [chooseMultipleWeighted, hany, if_true]
  · rw [Bool.not_eq_true] at hany
    simp only [chooseMultipleWeighted, hany, Bool.false_eq_true, if_false]
    rw [if_pos h]

namespace Knapsack

/-!
## `src/knapsack.rs` (and its duplicate in `src/main.rs`)

A `Thing` is a (value, weight) pair of `u32`s (the display-only `_name` is
dropped).  A genome's encoding is a vector of `{0,1}` flags, one per thing.
-/

structure Thing where
  value : Nat
  weight : Nat
deriving DecidableEq

/-- Loop of `Genome::fitness` (knapsack.rs:66-87): the `map_while` over
`things.iter().enumerate()` threading the running `weight` and `value`, which
stops at the first index where adding the (present-flag times) item weight
would exceed the limit.  The case where `data` runs out while `things`
remain would be an out-of-bounds `self.data[i]` panic in Rust; every caller
keeps one flag per thing (`data.length = things.length`), which the theorems
take as a hypothesis. -/
def fitnessGo (limit : Nat) : List Nat → List Thing → Nat → Nat → Nat
  | d :: ds, t :: ts, w, v =>
    if w + d * t.weight ≤ limit then fitnessGo limit ds ts (w + d * t.weight) (v + d * t.value)
    else v
  | _, _, _, v => v

/-- `Genome::fitness` (knapsack.rs:66-87): greedy truncation at the limit. -/
def fitness (limit : Nat) (things : List Thing) (data : List Nat) : Nat :=
  fitnessGo limit data things 0 0

/-- Loop of `Genome::mutate` (knapsack.rs:89-103): `while count < n`, draw a
random index, flip its bit with probability `prob`, counting successful flips.
The oracle `atts` supplies one `(index draw, coin)` pair per attempt; the
result carries the final `count`.  `none` models both the panic of
`random_range(0..0)` on an empty genome and the loop outliving the supplied
randomness (the loop has no other exit, so with `prob = 0` or an empty genome
range it would spin forever). -/
def mutateGo (n : Nat) : List (Nat × Bool) → Nat → List Nat → Option (List Nat × Nat)
  | [], count, data => if count < n then none else some (data, count)
  | (i, coin) :: rest, count, data =>
    if count < n then
      if data.length = 0 then none
      else if coin then
        mutateGo n rest (count + 1)
          (data.set (i % data.length) ((data.getD (i % data.length) 0 + 1) % 2))
      else mutateGo n rest count data
    else some (data, count)

/-- `Genome::mutate` (knapsack.rs:89-103). -/
def mutate (n : Nat) (atts : List (Nat × Bool)) (data : List Nat) : Option (List Nat × Nat) :=
  mutateGo n atts 0 data

/-- `Pair::crossover` (knapsack.rs:110-119): single-point crossover at the
drawn `cut_point`; each child is one parent's prefix followed by the other's
suffix (`split_off` and `concat`). -/
def crossover (cut : Nat) (a b : List Nat) : List Nat × List Nat :=
  (a.take cut ++ b.drop cut, b.take cut ++ a.drop cut)

/-- `Population::selection` (knapsack.rs:34-45): weighted draw of `size`
genomes with weight `genome.fitness()`, `unwrap`ped (`none` = panic).  The
`u32` fitness is cast into `ℤ` (exactly, as the `u32 → f64` conversion is). -/
def selection (limit : Nat) (things : List Thing) (picks : List Nat)
    (pop : List (List Nat)) (size : Nat) : Option (List (List Nat)) :=
  GenRs.chooseMultipleWeighted (fun g => (fitness limit things g : Int)) picks pop size

/-- `population.data.sort()` under knapsack's `Ord` instance
(`other.fitness().cmp(&self.fitness())`, knapsack.rs:129-133): stable sort by
descending fitness, best genome first. -/
def sortPop (limit : Nat) (things : List Thing) (pop : List (List Nat)) : List (List Nat) :=
  List.insertionSort (fun g h => fitness limit things h ≤ fitness limit things g) pop

/-- Randomness consumed by one iteration of the child loop of
`run_evolution`: the selection picks, the crossover cut point, and the
mutation attempt streams for the two children. -/
structure IterRand where
  picks : List Nat
  cut : Nat
  attA : List (Nat × Bool)
  attB : List (Nat × Bool)

/-- Child-producing loop of `run_evolution` (knapsack.rs:160-176):
`for _ in (0..population.data.len()).step_by(2)`, each iteration drawing two
parents by `selection(2)`, crossing them at a random cut, mutating both
children with `mutate(1, 0.5)` and pushing both.  `pop` is the sorted
population the parents are drawn from; `iters` is the number of loop
iterations (`⌈len/2⌉`); children are returned in push order. -/
def childLoop (limit : Nat) (things : List Thing) (ir : Nat → IterRand)
    (pop : List (List Nat)) : Nat → Nat → Option (List (List Nat))
  | _, 0 => some []
  | idx, rem + 1 =>
    let r := ir idx
    match selection limit things r.picks pop 2 with
    | none => none
    | some parents =>
      match parents.head?, parents.getLast? with
      | some a, some b =>
        if a.length = 0 then none
        else
          let c := crossover (r.cut % a.length) a b
          match mutate 1 r.attA c.1, mutate 1 r.attB c.2 with
          | some a2, some b2 =>
            match childLoop limit things ir pop (idx + 1) rem with
            | none => none
            | some restChildren => some (a2.1 :: b2.1 :: restChildren)
          | _, _ => none
      | _, _ => none

/-- One iteration of the generation loop of `run_evolution`
(knapsack.rs:149-181): sort descending, return the best genome if it meets
the target, otherwise build the replacement population from the two-genome
elite prefix (`get(0..=1).unwrap()`, a panic when the population has fewer
than two genomes) plus the children.  `Sum.inl` = replacement population,
`Sum.inr` = solution found, `none` = panic. -/
def generation (limit : Nat) (things : List Thing) (ir : Nat → IterRand)
    (target : Nat) (pop : List (List Nat)) : Option ((List (List Nat)) ⊕ (List Nat)) :=
  let sorted := sortPop limit things pop
  match sorted.head? with
  | none => none
  | some g0 =>
    if target ≤ fitness limit things g0 then some (Sum.inr g0)
    else if sorted.length < 2 then none
    else
      match childLoop limit things ir sorted 0 ((pop.length + 1) / 2) with
      | none => none
      | some children => some (Sum.inl (sorted.take 2 ++ children))

/-- `run_evolution` (knapsack.rs:149-181), as a fuel recursion over the
remaining generations; `i` is the loop index.  Result: `some (some (g, i))` =
`Some((genome, i))`, `some none` = the `None` returned when the generation
limit is exhausted, `none` = panic. -/
def runEvolutionGo (limit : Nat) (things : List Thing) (rr : Nat → Nat → IterRand)
    (target : Nat) : Nat → Nat → List (List Nat) → Option (Option (List Nat × Nat))
  | 0, _, _ => some none
  | fuel + 1, i, pop =>
    match generation limit things (rr i) target pop with
    | none => none
    | some (Sum.inr g) => some (some (g, i))
    | some (Sum.inl newPop) => runEvolutionGo limit things rr target fuel (i + 1) newPop

/-- `run_evolution(population, target, generation_limit)` (knapsack.rs:149-181). -/
def run_evolution (limit : Nat) (things : List Thing) (rr : Nat → Nat → IterRand)
    (target : Nat) (generationLimit : Nat) (pop : List (List Nat)) :
    Option (Option (List Nat × Nat)) :=
  runEvolutionGo limit things rr target generationLimit 0 pop

/-- Weight of the present items of (a prefix of) an encoding: the sum of
`flag * weight` over aligned flag/thing pairs. -/
def presentWeightSum (data : List Nat) (things : List Thing) : Nat :=
  ((data.zip things).map fun p => p.1 * p.2.weight).sum

/-- Value of the present items of (a prefix of) an encoding: the sum of
`flag * value` over aligned flag/thing pairs. -/
def presentValueSum (data : List Nat) (things : List Thing) : Nat :=
  ((data.zip things).map fun p => p.1 * p.2.value).sum

/-- The ten-item instance built by `knapsack.rs::run` and `main.rs::main`. -/
def things10 : List Thing :=
  [⟨500, 2200⟩, ⟨150, 160⟩, ⟨60, 350⟩, ⟨40, 333⟩, ⟨30, 192⟩,
   ⟨5, 25⟩, ⟨10, 38⟩, ⟨15, 80⟩, ⟨500, 200⟩, ⟨100, 70⟩]

end Knapsack

namespace Tsp

/-!
## `src/tsp.rs`

A genome's encoding is a permutation of the item indices `0..k`
(`Vec<usize>`, constructed as a shuffle of `(0..things.len()).collect()`).
`Genome::fitness` sums `f64` Euclidean distances around the closed tour;
it is modelled by an abstract oracle `fit : List Nat → α` into a linearly
ordered commutative ring (the engine only ever compares, subtracts and
remembers fitness values).
-/

variable {α : Type} [LinearOrderedCommRing α]

/-- `Vec::swap(i, j)` on a genome's data: exchange positions `i` and `j`
(both in bounds at every call site, since the swapped positions are drawn
from the genome's own entries, which are indices `< k = data.length`). -/
def swapPositions (l : List Nat) (i j : Nat) : List Nat :=
  (l.set i (l.getD j 0)).set j (l.getD i 0)

/-- Loop of `Genome::mutate` (tsp.rs:66-79).  The source guard is
`while n < count` with `count` initialised to `0` — the comparison is the
reverse of knapsack's `while count < n`, so for every `n : Nat` the guard is
false on entry and the body (flip a coin with probability `prob`; on success
choose two distinct entries of `data` and swap those positions, incrementing
`count`) never runs.  Each oracle attempt supplies `(coin, p, q)` with `p, q`
the two chosen entries; the result carries the final `count`. -/
def mutateGo (n : Nat) : List (Bool × Nat × Nat) → Nat → List Nat → Option (List Nat × Nat)
  | [], count, data => if n < count then none else some (data, count)
  | (coin, p, q) :: rest, count, data =>
    if n < count then
      if coin then mutateGo n rest (count + 1) (swapPositions data p q)
      else mutateGo n rest count data
    else some (data, count)

/-- `Genome::mutate` (tsp.rs:66-79). -/
def mutate (n : Nat) (atts : List (Bool × Nat × Nat)) (data : List Nat) :
    Option (List Nat × Nat) :=
  mutateGo n atts 0 data

/-- Fill step of `Pair::crossover` (tsp.rs:155-175): scan `src` in order and
append to the growing child each entry not already present. -/
def oxFill (init src : List Nat) : List Nat :=
  src.foldl (fun acc x => if x ∈ acc then acc else acc ++ [x]) init

/-- `Pair::crossover` (tsp.rs:155-175): order crossover at the drawn
`cut_point` — child A is parent A's prefix filled from parent B's full
sequence, child B symmetrically. -/
def crossover (cut : Nat) (a b : List Nat) : List Nat × List Nat :=
  (oxFill (a.take cut) b, oxFill (b.take cut) a)

/-- Selection weight used by `Population::selection` (tsp.rs:130-148):
`worst - genome.fitness() + 1.0`, where `worst` is the fitness of the LAST
genome of the population vector. -/
def weight (fit : List Nat → α) (worst : α) (g : List Nat) : α :=
  worst - fit g + 1

/-- `Population::selection` (tsp.rs:130-148): read `worst` from
`self.data.last().unwrap()` (a panic on an empty population), then draw
`size` genomes weighted by `worst - fitness + 1`, `unwrap`ped. -/
def selection (fit : List Nat → α) (picks : List Nat) (pop : List (List Nat))
    (size : Nat) : Option (List (List Nat)) :=
  match pop.getLast? with
  | none => none
  | some lastG => GenRs.chooseMultipleWeighted (weight fit (fit lastG)) picks pop size

/-- `population.data.sort()` under TSP's `Ord` instance
(`self.fitness().total_cmp(&other.fitness())`, tsp.rs:97-101): stable sort by
ascending fitness, best (shortest) tour first. -/
def sortPop (fit : List Nat → α) (pop : List (List Nat)) : List (List Nat) :=
  List.insertionSort (fun g h => fit g ≤ fit h) pop

/-- Run state carried by `Population` across generations (tsp.rs:113-118):
the genome vector, `best` (best fitness seen, initially `f64::MAX`) and
`generation_since_improvement`. -/
structure State (α : Type) where
  pop : List (List Nat)
  best : α
  gsi : Nat
deriving DecidableEq

/-- The stagnation bookkeeping at the top of each `run_evolution` generation
(tsp.rs:189-210): if the stored best equals the sorted-first fitness,
increment the counter; else if the sorted-first fitness strictly improves,
store it and reset the counter; otherwise (a first fitness worse than the
stored best) leave both unchanged. -/
def stagnationUpdate (best f0 : α) (gsi : Nat) : α × Nat :=
  if best = f0 then (best, gsi + 1)
  else if f0 < best then (f0, 0)
  else (best, gsi)

/-- `Population::reset_with_best` (tsp.rs:139-146 region): keep only the
first (best) genome, append `len - 1` freshly randomized genomes (the `fresh`
oracle), and sort.  (The counter reset it also performs is handled at the
call site model.) -/
def resetWithBest (fit : List Nat → α) (fresh : Nat → List Nat)
    (pop : List (List Nat)) : List (List Nat) :=
  sortPop fit (pop.take 1 ++ (List.range (pop.length - 1)).map fresh)

/-- Randomness consumed by one iteration of the TSP child loop. -/
structure IterRand where
  picks : List Nat
  cut : Nat
  attA : List (Bool × Nat × Nat)
  attB : List (Bool × Nat × Nat)

/-- Randomness consumed by one TSP generation: fresh genomes for a possible
elitist reset, and per-iteration child-loop randomness. -/
structure GenRand where
  fresh : Nat → List Nat
  iter : Nat → IterRand

/-- Child-producing loop of TSP `run_evolution` (tsp.rs:224-236):
`for _ in (0..population.data.len()).step_by(4)`, each iteration drawing two
parents by `selection(2)`, order-crossing them, mutating both children with
`mutate(1, 0.5)` (a no-op, see `mutateGo`) and pushing both. -/
def childLoop (fit : List Nat → α) (ir : Nat → IterRand)
    (pop : List (List Nat)) : Nat → Nat → Option (List (List Nat))
  | _, 0 => some []
  | idx, rem + 1 =>
    let r := ir idx
    match selection fit r.picks pop 2 with
    | none => none
    | some parents =>
      match parents.head?, parents.getLast? with
      | some a, some b =>
        if a.length = 0 then none
        else
          let c := crossover (r.cut % a.length) a b
          match mutate 1 r.attA c.1, mutate 1 r.attB c.2 with
          | some a2, some b2 =>
            match childLoop fit ir pop (idx + 1) rem with
            | none => none
            | some restChildren => some (a2.1 :: b2.1 :: restChildren)
          | _, _ => none
      | _, _ => none

/-- One iteration of the TSP generation loop (tsp.rs:189-238): sort
ascending; run the stagnation bookkeeping on the sorted-first fitness;
trigger `reset_with_best` when the counter exceeds 50; return the current
first genome when it meets the finish condition
(`fitness <= target && target > 0.0`); otherwise build the replacement
population from the first-half elite prefix plus the children.  `Sum.inl` =
next state, `Sum.inr` = solution, `none` = panic. -/
def generation (fit : List Nat → α) (gr : GenRand) (target : α) (st : State α) :
    Option (State α ⊕ (List Nat)) :=
  let sorted := sortPop fit st.pop
  match sorted.head? with
  | none => none
  | some g0 =>
    let bg := stagnationUpdate st.best (fit g0) st.gsi
    let pop2 := if 50 < bg.2 then resetWithBest fit gr.fresh sorted else sorted
    let gsi2 := if 50 < bg.2 then 0 else bg.2
    match pop2.head? with
    | none => none
    | some h0 =>
      if fit h0 ≤ target ∧ 0 < target then some (Sum.inr h0)
      else
        match childLoop fit gr.iter pop2 0 ((pop2.length + 3) / 4) with
        | none => none
        | some children =>
          some (Sum.inl ⟨pop2.take (pop2.length / 2) ++ children, bg.1, gsi2⟩)

/-- TSP `run_evolution` (tsp.rs:184-241) as a fuel recursion.  After the
`for` loop exhausts the generation limit the source returns
`Some((population.data.first().unwrap(), 0))` — `Some` of the current first
genome with a hard-coded index of `0`, never `None`.  `some none` (the
explicit absence-of-solution value) is therefore unreachable; `none` = panic. -/
def runEvolutionGo (fit : List Nat → α) (rr : Nat → GenRand) (target : α) :
    Nat → Nat → State α → Option (Option (List Nat × Nat))
  | 0, _, st =>
    match st.pop.head? with
    | none => none
    | some g => some (some (g, 0))
  | fuel + 1, i, st =>
    match generation fit (rr i) target st with
    | none => none
    | some (Sum.inr g) => some (some (g, i))
    | some (Sum.inl st2) => runEvolutionGo fit rr target fuel (i + 1) st2

/-- TSP `run_evolution(population, target, generation_limit)` (tsp.rs:184-241). -/
def run_evolution (fit : List Nat → α) (rr : Nat → GenRand) (target : α)
    (generationLimit : Nat) (st : State α) : Option (Option (List Nat × Nat)) :=
  runEvolutionGo fit rr target generationLimit 0 st

/-- A permutation genome invariant: the encoding is a permutation of the item
indices `0..k` (no duplicates, no omissions). -/
def IsPermOf (k : Nat) (l : List Nat) : Prop :=
  l.Perm (List.range k)

instance (k : Nat) (l : List Nat) : Decidable (IsPermOf k l) :=
  List.decidablePerm l (List.range k)

/-- The operators `run_evolution` applies to permutation genomes: order
crossover at some cut, the swap of two positions on either genome (the
perturbation `Genome::mutate` is specified to perform), and the actual
`Genome::mutate` of the source (with its oracle stream). -/
inductive Op where
  | cross (cut : Nat)
  | swapA (i j : Nat)
  | swapB (i j : Nat)
  | mutA (n : Nat) (atts : List (Bool × Nat × Nat))
  | mutB (n : Nat) (atts : List (Bool × Nat × Nat))
deriving DecidableEq

/-- Apply one operator to a pair of genomes.  For the (never-failing, no-op)
source `mutate` the unreachable `none` branch keeps the pair. -/
def applyOp : Op → List Nat × List Nat → List Nat × List Nat
  | Op.cross cut, p => crossover cut p.1 p.2
  | Op.swapA i j, p => (swapPositions p.1 i j, p.2)
  | Op.swapB i j, p => (p.1, swapPositions p.2 i j)
  | Op.mutA n atts, p =>
    match mutate n atts p.1 with
    | some r => (r.1, p.2)
    | none => p
  | Op.mutB n atts, p =>
    match mutate n atts p.2 with
    | some r => (p.1, r.1)
    | none => p

/-- Apply a sequence of operators to a pair of genomes. -/
def applyOps (ops : List Op) (p : List Nat × List Nat) : List Nat × List Nat :=
  ops.foldl (fun q o => applyOp o q) p

/-- In-bounds condition for the swapped positions: the source draws them as
entries of the genome, which for a permutation of `0..k` are `< k`. -/
def Op.inBounds (k : Nat) : Op → Prop
  | Op.cross _ => True
  | Op.swapA i j => i < k ∧ j < k
  | Op.swapB i j => i < k ∧ j < k
  | Op.mutA _ _ => True
  | Op.mutB _ _ => True

instance (k : Nat) : ∀ op : Op, Decidable (Op.inBounds k op) := fun op =>
  match op with
  | Op.cross _ => inferInstanceAs (Decidable True)
  | Op.swapA i j => inferInstanceAs (Decidable (i < k ∧ j < k))
  | Op.swapB i j => inferInstanceAs (Decidable (i < k ∧ j < k))
  | Op.mutA _ _ => inferInstanceAs (Decidable True)
  | Op.mutB _ _ => inferInstanceAs (Decidable True)

end Tsp

end GenRs

namespace GenRs

namespace Tsp

/-! ## Properties of the TSP operators -/

/-- The source `Genome::mutate` is the identity: its loop guard `n < count`
is false on entry (`count = 0`), so no attempt is ever consumed and no swap is
ever performed. -/
theorem mutate_eq_noop (n : Nat) (atts : List (Bool × Nat × Nat)) (data : List Nat) :
    mutate n atts data = some (data, 0) := by
  unfold mutate
  cases atts with
  | nil => simp [mutateGo]
  | cons a rest =>
    obtain ⟨coin, p, q⟩ := a
    simp [mutateGo]

theorem cons_set_perm (a : Nat) :
    ∀ (t : List Nat) (m : Nat), m < t.length → (t.getD m 0 :: t.set m a).Perm (a :: t)
  | b :: s, 0, _ => by
    simpa using List.Perm.swap a b s
  | b :: s, m + 1, hm => by
    have hm' : m < s.length := by simpa using hm
    have h1 : (s.getD m 0 :: b :: s.set m a).Perm (b :: s.getD m 0 :: s.set m a) :=
      List.Perm.swap b (s.getD m 0) _
    have h2 : (b :: s.getD m 0 :: s.set m a).Perm (b :: a :: s) :=
      (cons_set_perm a s m hm').cons b
    have h3 : (b :: a :: s).Perm (a :: b :: s) := List.Perm.swap a b s
    simpa using (h1.trans h2).trans h3

/-- `Vec::swap` on in-bounds positions permutes the list. -/
theorem swapPositions_perm :
    ∀ (l : List Nat) (i j : Nat), i < l.length → j < l.length →
      (swapPositions l i j).Perm l
  | a :: t, 0, 0, _, _ => by
    simp [swapPositions]
  | a :: t, 0, j + 1, _, hj => by
    have hj' : j < t.length := by simpa using hj
    simpa [swapPositions, List.getD_cons_succ] using cons_set_perm a t j hj'
  | a :: t, i + 1, 0, hi, _ => by
    have hi' : i < t.length := by simpa using hi
    have := cons_set_perm a t i hi'
    simpa [swapPositions, List.getD_cons_succ] using this
  | a :: t, i + 1, j + 1, hi, hj => by
    have hi' : i < t.length := by simpa using hi
    have hj' : j < t.length := by simpa using hj
    simpa [swapPositions, List.getD_cons_succ] using
      (swapPositions_perm t i j hi' hj').cons a

theorem oxFill_extends : ∀ (src init : List Nat), ∃ t, oxFill init src = init ++ t
  | [], init => ⟨[], by simp [oxFill]⟩
  | x :: src, init => by
    unfold oxFill
    rw [List.foldl_cons]
    by_cases hx : x ∈ init
    · simpa [hx] using oxFill_extends src init
    · obtain ⟨t, ht⟩ := oxFill_extends src (init ++ [x])
      refine ⟨[x] ++ t, ?_⟩
      simpa [hx, List.append_assoc] using ht

theorem mem_oxFill : ∀ (src init : List Nat) (a : Nat),
    a ∈ oxFill init src ↔ a ∈ init ∨ a ∈ src
  | [], init, a => by simp [oxFill]
  | x :: src, init, a => by
    unfold oxFill
    rw [List.foldl_cons]
    by_cases hx : x ∈ init
    · rw [if_pos hx]
      rw [show List.foldl (fun acc y => if y ∈ acc then acc else acc ++ [y]) init src
            = oxFill init src from rfl]
      rw [mem_oxFill src init a]
      constructor
      · rintro (h | h)
        · exact Or.inl h
        · exact Or.inr (List.mem_cons_of_mem x h)
      · rintro (h | h)
        · exact Or.inl h
        · rcases List.mem_cons.mp h with rfl | h
          · exact Or.inl hx
          · exact Or.inr h
    · rw [if_neg hx]
      rw [show List.foldl (fun acc y => if y ∈ acc then acc else acc ++ [y]) (init ++ [x]) src
            = oxFill (init ++ [x]) src from rfl]
      rw [mem_oxFill src (init ++ [x]) a]
      simp only [List.mem_append, List.mem_singleton, List.mem_cons]
      tauto

theorem nodup_oxFill : ∀ (src init : List Nat), init.Nodup → (oxFill init src).Nodup
  | [], init, h => by simpa [oxFill] using h
  | x :: src, init, h => by
    unfold oxFill
    rw [List.foldl_cons]
    by_cases hx : x ∈ init
    · rw [if_pos hx]
      exact nodup_oxFill src init h
    · rw [if_neg hx]
      refine nodup_oxFill src (init ++ [x]) ?_
      rw [List.nodup_append]
      exact ⟨h, List.nodup_singleton x, fun b hb hbx => hx (by
        rcases List.mem_singleton.mp hbx with rfl
        exact hb)⟩

theorem isPermOf_nodup {k : Nat} {l : List Nat} (h : IsPermOf k l) : l.Nodup :=
  h.nodup_iff.mpr (List.nodup_range k)

theorem isPermOf_length {k : Nat} {l : List Nat} (h : IsPermOf k l) : l.length = k := by
  simpa using h.length_eq

/-- Order crossover's fill produces a permutation again: the growing child
starts from a duplicate-free prefix and appends exactly the missing indices,
in the order the other parent lists them. -/
theorem oxFill_isPermOf {k : Nat} (cut : Nat) {a b : List Nat}
    (ha : IsPermOf k a) (hb : IsPermOf k b) : IsPermOf k (oxFill (a.take cut) b) := by
  have hnd : (oxFill (a.take cut) b).Nodup :=
    nodup_oxFill b (a.take cut) ((List.take_sublist cut a).nodup (isPermOf_nodup ha))
  refine List.perm_of_nodup_nodup_toFinset_eq hnd (List.nodup_range k) ?_
  ext x
  simp only [List.mem_toFinset, List.mem_range]
  rw [mem_oxFill]
  constructor
  · rintro (h | h)
    · exact List.mem_range.mp (ha.mem_iff.mp (List.take_subset cut a h))
    · exact List.mem_range.mp (hb.mem_iff.mp h)
  · intro h
    exact Or.inr (hb.mem_iff.mpr (List.mem_range.mpr h))

theorem crossover_isPermOf {k : Nat} (cut : Nat) {a b : List Nat}
    (ha : IsPermOf k a) (hb : IsPermOf k b) :
    IsPermOf k (crossover cut a b).1 ∧ IsPermOf k (crossover cut a b).2 :=
  ⟨oxFill_isPermOf cut ha hb, oxFill_isPermOf cut hb ha⟩

theorem applyOp_isPermOf {k : Nat} {p : List Nat × List Nat} {op : Op}
    (hop : Op.inBounds k op) (h1 : IsPermOf k p.1) (h2 : IsPermOf k p.2) :
    IsPermOf k (applyOp op p).1 ∧ IsPermOf k (applyOp op p).2 := by
  cases op with
  | cross cut => exact crossover_isPermOf cut h1 h2
  | swapA i j =>
    obtain ⟨hi, hj⟩ := hop
    rw [← isPermOf_length h1] at hi hj
    exact ⟨(swapPositions_perm p.1 i j hi hj).trans h1, h2⟩
  | swapB i j =>
    obtain ⟨hi, hj⟩ := hop
    rw [← isPermOf_length h2] at hi hj
    exact ⟨h1, (swapPositions_perm p.2 i j hi hj).trans h2⟩
  | mutA n atts =>
    simpa [applyOp, mutate_eq_noop] using ⟨h1, h2⟩
  | mutB n atts =>
    simpa [applyOp, mutate_eq_noop] using ⟨h1, h2⟩

/-- C1: for every permutation genome pair whose encodings are permutations of
`0..k`, the encodings remain permutations of `0..k` (no duplicates, no
omissions) after any number of order-crossover and mutation operations:
crossover copies a parent's prefix up to the cut point and fills the rest by
scanning the other parent in order, appending only the indices not already
present, and a mutation perturbation only swaps two (in-bounds) positions —
the source `Genome::mutate` itself performs no swap at all, which preserves
the invariant trivially. -/
theorem c1_permutation_invariant (k : Nat) (ops : List Op) :
    ∀ (a b : List Nat), IsPermOf k a → IsPermOf k b →
      (∀ op ∈ ops, Op.inBounds k op) →
      IsPermOf k (applyOps ops (a, b)).1 ∧ IsPermOf k (applyOps ops (a, b)).2 := by
  induction ops with
  | nil => exact fun a b ha hb _ => ⟨ha, hb⟩
  | cons op ops ih =>
    intro a b ha hb hops
    have hstep := applyOp_isPermOf (p := (a, b)) (hops op (List.mem_cons_self op ops)) ha hb
    have := ih (applyOp op (a, b)).1 (applyOp op (a, b)).2 hstep.1 hstep.2
      fun o ho => hops o (List.mem_cons_of_mem op ho)
    simpa [applyOps, List.foldl_cons] using this

/-- Witness for C1 at a concrete input: a crossover at cut 1, two swaps and a
source mutation applied to two permutations of `0..3`. -/
theorem c1_permutation_invariant_witness :
    IsPermOf 3
      (applyOps [Op.cross 1, Op.swapA 0 2, Op.mutA 1 [(true, 0, 1)], Op.swapB 1 2]
        ([0, 1, 2], [2, 0, 1])).1 ∧
    IsPermOf 3
      (applyOps [Op.cross 1, Op.swapA 0 2, Op.mutA 1 [(true, 0, 1)], Op.swapB 1 2]
        ([0, 1, 2], [2, 0, 1])).2 :=
  c1_permutation_invariant 3 _ [0, 1, 2] [2, 0, 1] (by decide) (by decide) (by decide)

end Tsp

end GenRs

namespace GenRs

/-! ## The mutation success-counting contract (C2) -/

/-- C2: the claim fails on the TSP encoding.  Evaluating the code at the
failing input: TSP `mutate(1, 0.5)` on the permutation genome `[0, 1, 2]`,
with an oracle stream offering two successful swap attempts, performs `0`
swaps and returns the genome unchanged (its loop guard `n < count` is false
on entry), while knapsack `mutate(1, 0.5)` on `[1]`, with one failed and one
successful attempt, performs exactly `1` flip counted over `2` attempts —
successes, not attempts. -/
theorem c2_mutation_success_counting :
    Tsp.mutate 1 [(true, 0, 1), (true, 1, 2)] [0, 1, 2] = some ([0, 1, 2], 0) ∧
    Knapsack.mutate 1 [(0, false), (0, true)] [1] = some ([0], 1) := by
  decide

/-- The knapsack mutation loop, when it terminates, has counted exactly `n`
successful flips, however many attempts it consumed. -/
theorem kMutateGo_count (n : Nat) :
    ∀ (atts : List (Nat × Bool)) (count : Nat) (data data2 : List Nat) (c : Nat),
      count ≤ n → Knapsack.mutateGo n atts count data = some (data2, c) → c = n
  | [], count, data, data2, c, hle, h => by
    by_cases hc : count < n
    · simp [Knapsack.mutateGo, hc] at h
    · simp [Knapsack.mutateGo, hc] at h
      omega
  | (i, coin) :: rest, count, data, data2, c, hle, h => by
    by_cases hc : count < n
    · simp only [Knapsack.mutateGo, if_pos hc] at h
      by_cases hd : data.length = 0
      · simp [hd] at h
      · simp only [hd, if_false] at h
        by_cases hcoin : coin = true
        · rw [if_pos hcoin] at h
          exact kMutateGo_count n rest (count + 1) _ data2 c (by omega) h
        · rw [if_neg hcoin] at h
          exact kMutateGo_count n rest count data data2 c hle h
    · simp only [Knapsack.mutateGo, if_neg hc] at h
      have : c = count := by
        cases h
        rfl
      omega

/-- Knapsack `mutate(n, prob)`: any terminating run performs exactly `n`
successful perturbations (the count it returns), regardless of how many
attempts the probability coin rejected along the way. -/
theorem kMutate_count (n : Nat) (atts : List (Nat × Bool)) (data data2 : List Nat) (c : Nat)
    (h : Knapsack.mutate n atts data = some (data2, c)) : c = n :=
  kMutateGo_count n atts 0 data data2 c (Nat.zero_le n) h

namespace Knapsack

/-! ## Knapsack helper lemmas -/

theorem kSortPop_perm (limit : Nat) (things : List Thing) (pop : List (List Nat)) :
    (sortPop limit things pop).Perm pop :=
  List.perm_insertionSort _ pop

theorem kSortPop_sorted (limit : Nat) (things : List Thing) (pop : List (List Nat)) :
    List.Sorted (fun g h => fitness limit things h ≤ fitness limit things g)
      (sortPop limit things pop) := by
  haveI : IsTotal (List Nat) (fun g h => fitness limit things h ≤ fitness limit things g) :=
    ⟨fun a b => le_total _ _⟩
  haveI : IsTrans (List Nat) (fun g h => fitness limit things h ≤ fitness limit things g) :=
    ⟨fun a b c hab hbc => le_trans hbc hab⟩
  exact List.sorted_insertionSort _ pop

theorem kSortPop_headI_max (limit : Nat) (things : List Thing) (pop : List (List Nat))
    (g : List Nat) (hg : g ∈ pop) :
    fitness limit things g ≤ fitness limit things ((sortPop limit things pop).headI) := by
  have hmem : g ∈ sortPop limit things pop := (kSortPop_perm limit things pop).mem_iff.mpr hg
  have hsorted := kSortPop_sorted limit things pop
  cases hs : sortPop limit things pop with
  | nil => rw [hs] at hmem; simp at hmem
  | cons h t =>
    rw [hs] at hmem hsorted
    rw [List.sorted_cons] at hsorted
    rcases List.mem_cons.mp hmem with rfl | hmem
    · simp
    · simpa using hsorted.1 g hmem

/-- `fitnessGo` computes greedy truncation: there is a stop index `s` such
that the result adds the values of the first `s` (present) items, no prefix
up to `s` overflows the limit, and if the scan stopped before the end it
stopped at a PRESENT item whose addition would overflow. -/
theorem kFitnessGo_spec (limit : Nat) :
    ∀ (data : List Nat) (things : List Thing) (w v : Nat),
      data.length = things.length → w ≤ limit → (∀ d ∈ data, d ≤ 1) →
      ∃ s, s ≤ data.length ∧
        fitnessGo limit data things w v = v + presentValueSum (data.take s) (things.take s) ∧
        (∀ i, i ≤ s → w + presentWeightSum (data.take i) (things.take i) ≤ limit) ∧
        (s < data.length →
          data.getD s 0 = 1 ∧
          limit < w + presentWeightSum (data.take s) (things.take s) +
            (things.getD s ⟨0, 0⟩).weight)
  | [], things, w, v, hlen, hw, hbits => by
    refine ⟨0, Nat.le_refl 0, ?_, ?_, by simp⟩
    · simp [fitnessGo, presentValueSum]
    · intro i hi
      interval_cases i
      simpa [presentWeightSum] using hw
  | d :: ds, things, w, v, hlen, hw, hbits => by
    cases things with
    | nil => simp at hlen
    | cons t ts =>
      have hlen' : ds.length = ts.length := by simpa using hlen
      have hbits' : ∀ x ∈ ds, x ≤ 1 := fun x hx => hbits x (List.mem_cons_of_mem d hx)
      have hd1 : d ≤ 1 := hbits d (List.mem_cons_self d ds)
      by_cases hfit : w + d * t.weight ≤ limit
      · obtain ⟨s, hsle, hval, hwt, hstop⟩ :=
          kFitnessGo_spec limit ds ts (w + d * t.weight) (v + d * t.value) hlen' hfit hbits'
        refine ⟨s + 1, by simpa using Nat.succ_le_succ hsle, ?_, ?_, ?_⟩
        · rw [show fitnessGo limit (d :: ds) (t :: ts) w v
              = fitnessGo limit ds ts (w + d * t.weight) (v + d * t.value) by
                simp [fitnessGo, hfit]]
          rw [hval]
          simp only [List.take_succ_cons, presentValueSum, List.zip_cons_cons, List.map_cons,
            List.sum_cons]
          omega
        · intro i hi
          cases i with
          | zero => simpa [presentWeightSum] using hw
          | succ i =>
            have := hwt i (by omega)
            simp only [List.take_succ_cons, presentWeightSum, List.zip_cons_cons, List.map_cons,
              List.sum_cons]
            simp only [presentWeightSum] at this
            omega
        · intro hslt
          have hslt' : s < ds.length := by simpa using hslt
          obtain ⟨hd, hover⟩ := hstop hslt'
          refine ⟨by simpa using hd, ?_⟩
          simp only [List.take_succ_cons, presentWeightSum, List.zip_cons_cons, List.map_cons,
            List.sum_cons, List.getD_cons_succ]
          simp only [presentWeightSum] at hover
          omega
      · have hd : d = 1 := by
          by_contra hne
          have hd0 : d = 0 := by omega
          subst hd0
          exact hfit (by simpa using hw)
        subst hd
        have hfit2 : ¬ w + t.weight ≤ limit := by simpa using hfit
        refine ⟨0, Nat.zero_le _, ?_, ?_, ?_⟩
        · simp [fitnessGo, hfit2, presentValueSum]
        · intro i hi
          interval_cases i
          simpa [presentWeightSum] using hw
        · intro _
          refine ⟨by simp, ?_⟩
          simp only [List.take_zero, presentWeightSum, List.zip_nil_left, List.map_nil,
            List.sum_nil, List.getD_cons_zero]
          omega

/-- C6: knapsack fitness is greedy truncation at the limit.  For every subset
genome (one `{0,1}` flag per thing) there is a stop index `s`: the fitness is
exactly the summed value of the present items before `s` (so every present
item at or after `s` contributes nothing to weight or value, even if it alone
would fit); no prefix of the scan up to `s` exceeds the weight limit (absent
items add `0` weight, so they never stop the scan); and when the scan stopped
early, it stopped at a present item (`flag = 1`) whose weight would push the
running total over the limit. -/
theorem c6_greedy_truncation (limit : Nat) (things : List Thing) (data : List Nat)
    (hlen : data.length = things.length) (hbits : ∀ d ∈ data, d ≤ 1) :
    ∃ s, s ≤ data.length ∧
      fitness limit things data = presentValueSum (data.take s) (things.take s) ∧
      (∀ i, i ≤ s → presentWeightSum (data.take i) (things.take i) ≤ limit) ∧
      (s < data.length →
        data.getD s 0 = 1 ∧
        limit < presentWeightSum (data.take s) (things.take s) +
          (things.getD s ⟨0, 0⟩).weight) := by
  obtain ⟨s, hsle, hval, hwt, hstop⟩ :=
    kFitnessGo_spec limit data things 0 0 hlen (Nat.zero_le limit) hbits
  refine ⟨s, hsle, by simpa [fitness] using hval, ?_, ?_⟩
  · intro i hi
    simpa using hwt i hi
  · intro hslt
    obtain ⟨hd, hover⟩ := hstop hslt
    exact ⟨hd, by simpa using hover⟩

/-- Witness for C6 at a concrete input: with limit 3000 and three items of
weights 2200, 900, 50, the all-present genome stops at the second item
(2200 + 900 > 3000) and scores only the first item's value, even though the
third item alone would fit. -/
theorem c6_greedy_truncation_witness :
    ∃ s, s ≤ ([1, 1, 1] : List Nat).length ∧
      fitness 3000 [⟨500, 2200⟩, ⟨150, 900⟩, ⟨60, 50⟩] [1, 1, 1] =
        presentValueSum (([1, 1, 1] : List Nat).take s)
          (([⟨500, 2200⟩, ⟨150, 900⟩, ⟨60, 50⟩] : List Thing).take s) ∧
      (∀ i, i ≤ s →
        presentWeightSum (([1, 1, 1] : List Nat).take i)
          (([⟨500, 2200⟩, ⟨150, 900⟩, ⟨60, 50⟩] : List Thing).take i) ≤ 3000) ∧
      (s < ([1, 1, 1] : List Nat).length →
        ([1, 1, 1] : List Nat).getD s 0 = 1 ∧
        3000 < presentWeightSum (([1, 1, 1] : List Nat).take s)
            (([⟨500, 2200⟩, ⟨150, 900⟩, ⟨60, 50⟩] : List Thing).take s) +
          (([⟨500, 2200⟩, ⟨150, 900⟩, ⟨60, 50⟩] : List Thing).getD s ⟨0, 0⟩).weight) :=
  c6_greedy_truncation 3000 [⟨500, 2200⟩, ⟨150, 900⟩, ⟨60, 50⟩] [1, 1, 1]
    (by decide) (by decide)

end Knapsack

end GenRs

namespace GenRs

/-! ## Selection semantics (C4, C10) -/

/-- Knapsack `selection` succeeds on an all-positive-fitness population,
returning `min size pop.length` genomes drawn from distinct positions. -/
theorem kSelection_success (limit : Nat) (things : List Knapsack.Thing) (picks : List Nat)
    (pop : List (List Nat)) (size : Nat)
    (hpos : ∀ g ∈ pop, 0 < Knapsack.fitness limit things g) :
    ∃ l, Knapsack.selection limit things picks pop size = some l ∧
      l.length = min size pop.length ∧ l.Subperm pop := by
  have hpos' : ∀ g ∈ pop, (0 : Int) < (Knapsack.fitness limit things g : Int) := fun g hg => by
    exact_mod_cast hpos g hg
  obtain ⟨l, h1, h2, h3⟩ := chooseMultipleWeighted_of_all_pos
    (fun g => (Knapsack.fitness limit things g : Int)) picks pop size hpos'
  exact ⟨l, h1, h2, h3⟩

/-- TSP `selection` succeeds whenever the last genome's fitness is maximal
(all weights are then `≥ 1`), returning `min size pop.length` genomes drawn
from distinct positions. -/
theorem tSelection_success {α : Type} [LinearOrderedCommRing α] (fit : List Nat → α)
    (picks : List Nat) (pop : List (List Nat)) (size : Nat) (lg : List Nat)
    (hlast : pop.getLast? = some lg) (hmax : ∀ g ∈ pop, fit g ≤ fit lg) :
    ∃ l, Tsp.selection fit picks pop size = some l ∧
      l.length = min size pop.length ∧ l.Subperm pop := by
  have hpos : ∀ g ∈ pop, 0 < Tsp.weight fit (fit lg) g := fun g hg => by
    have := hmax g hg
    unfold Tsp.weight
    linarith
  obtain ⟨l, h1, h2, h3⟩ := chooseMultipleWeighted_of_all_pos
    (Tsp.weight fit (fit lg)) picks pop size hpos
  refine ⟨l, ?_, h2, h3⟩
  unfold Tsp.selection
  rw [hlast]
  exact h1

/-- C4 counterexample: `selection(size)` does not sample with replacement.
Drawing `size = 2` from the 1-genome population `[[1]]` (positive fitness)
returns 1 genome, not 2: `choose_multiple_weighted` clamps the amount to the
population length and samples without replacement, so the result can never
contain more genomes than the population. -/
theorem c4_counterexample :
    (Knapsack.selection 1 [⟨1, 1⟩] [] [[1]] 2).map List.length = some 1 := by
  decide

/-- C4 amended: for every population whose selection weights are all
positive (knapsack: positive fitness; TSP: last genome's fitness maximal),
`selection(size)` draws `min size pop.length` genomes WITHOUT replacement —
the result is a sub-permutation of the population (genomes from pairwise
distinct positions) in a fresh snapshot; when `size` exceeds the population
length the result contains only `pop.length` genomes, not `size`. -/
theorem c4_selection_without_replacement :
    (∀ (limit : Nat) (things : List Knapsack.Thing) (picks : List Nat)
        (pop : List (List Nat)) (size : Nat),
        (∀ g ∈ pop, 0 < Knapsack.fitness limit things g) →
        ∃ l, Knapsack.selection limit things picks pop size = some l ∧
          l.length = min size pop.length ∧ l.Subperm pop) ∧
    (∀ (fit : List Nat → Int) (picks : List Nat) (pop : List (List Nat)) (size : Nat)
        (lg : List Nat), pop.getLast? = some lg → (∀ g ∈ pop, fit g ≤ fit lg) →
        ∃ l, Tsp.selection fit picks pop size = some l ∧
          l.length = min size pop.length ∧ l.Subperm pop) :=
  ⟨fun limit things picks pop size hpos => kSelection_success limit things picks pop size hpos,
   fun fit picks pop size lg hlast hmax => tSelection_success fit picks pop size lg hlast hmax⟩

/-- Witness for C4 (amended) at concrete inputs: drawing 3 from a 2-genome
knapsack population yields 2 genomes; drawing 2 from a sorted 2-genome TSP
population yields 2 genomes. -/
theorem c4_selection_without_replacement_witness :
    (∃ l, Knapsack.selection 1 [⟨1, 1⟩] [] [[1], [1]] 3 = some l ∧
        l.length = min 3 2 ∧ l.Subperm [[1], [1]]) ∧
    (∃ l, Tsp.selection (fun g => (g.headI : Int)) [] [[0], [1]] 2 = some l ∧
        l.length = min 2 2 ∧ l.Subperm [[0], [1]]) :=
  ⟨c4_selection_without_replacement.1 1 [⟨1, 1⟩] [] [[1], [1]] 3 (by decide),
   c4_selection_without_replacement.2 (fun g => (g.headI : Int)) [] [[0], [1]] 2 [1]
     (by decide) (by decide)⟩

/-- C10 counterexample: an EMPTY population does not make knapsack
`selection` panic — `choose_multiple_weighted` clamps the requested amount to
`min 2 0 = 0` and returns an empty draw, so `selection` returns an empty
population rather than failing. -/
theorem c10_counterexample :
    Knapsack.selection 3000 Knapsack.things10 [] [] 2 = some [] := by
  decide

/-- C10 amended: knapsack `selection` weights genomes by raw fitness and
unwraps the draw; on the reachable population of two all-zero subset genomes
(every weight `0`, fewer positive weights than the clamped amount `2`) the
draw fails and `selection` panics — but on an empty population the clamped
amount is `0` and the draw succeeds with an empty result. -/
theorem c10_zero_weight_panic :
    Knapsack.selection 3000 Knapsack.things10 []
      [[0, 0, 0, 0, 0, 0, 0, 0, 0, 0], [0, 0, 0, 0, 0, 0, 0, 0, 0, 0]] 2 = none ∧
    Knapsack.selection 3000 Knapsack.things10 [] [] 2 = some [] := by
  decide

end GenRs

namespace GenRs

/-! ## The generation loop (C3, C7) -/

/-- Every successful iteration of the knapsack child loop pushes exactly two
children, so a completed loop contributes `2 * iters` genomes. -/
theorem kChildLoop_length (limit : Nat) (things : List Knapsack.Thing)
    (ir : Nat → Knapsack.IterRand) (pop : List (List Nat)) :
    ∀ (iters idx : Nat) (children : List (List Nat)),
      Knapsack.childLoop limit things ir pop idx iters = some children →
      children.length = 2 * iters := by
  intro iters
  induction iters with
  | zero =>
    intro idx children h
    simp only [Knapsack.childLoop, Option.some.injEq] at h
    subst h
    rfl
  | succ iters ih =>
    intro idx children h
    simp only [Knapsack.childLoop] at h
    split at h
    · exact absurd h (by simp)
    · split at h
      · split at h
        · exact absurd h (by simp)
        · split at h
          · split at h
            · exact absurd h (by simp)
            · rename_i restChildren hrest
              rw [Option.some.injEq] at h
              subst h
              have := ih (idx + 1) restChildren hrest
              simp only [List.length_cons, this]
              omega
          · exact absurd h (by simp)
      · exact absurd h (by simp)

/-- Knapsack `run_evolution` only hands back a genome through the
target check, so a returned solution meets the target. -/
theorem kGeneration_inr (limit : Nat) (things : List Knapsack.Thing)
    (ir : Nat → Knapsack.IterRand) (target : Nat) (pop : List (List Nat)) (g : List Nat)
    (h : Knapsack.generation limit things ir target pop = some (Sum.inr g)) :
    target ≤ Knapsack.fitness limit things g := by
  simp only [Knapsack.generation] at h
  split at h
  · exact absurd h (by simp)
  · rename_i g0 hhead
    split at h
    · rename_i htgt
      rw [Option.some.injEq, Sum.inr.injEq] at h
      subst h
      exact htgt
    · split at h
      · exact absurd h (by simp)
      · split at h
        · exact absurd h (by simp)
        · exact absurd h (by simp)

/-- The knapsack replacement population always has `2 + 2 * ⌈N/2⌉` genomes
(`N` the previous population size): a two-genome elite prefix plus two
children per `step_by(2)` iteration. -/
theorem kGeneration_inl_length (limit : Nat) (things : List Knapsack.Thing)
    (ir : Nat → Knapsack.IterRand) (target : Nat) (pop newPop : List (List Nat))
    (h : Knapsack.generation limit things ir target pop = some (Sum.inl newPop)) :
    newPop.length = 2 + 2 * ((pop.length + 1) / 2) := by
  simp only [Knapsack.generation] at h
  split at h
  · exact absurd h (by simp)
  · rename_i g0 hhead
    split at h
    · exact absurd h (by simp)
    · split at h
      · exact absurd h (by simp)
      · rename_i hlen2
        split at h
        · exact absurd h (by simp)
        · rename_i children hchild
          rw [Option.some.injEq, Sum.inl.injEq] at h
          subst h
          have hc := kChildLoop_length limit things ir _ _ 0 children hchild
          have hsl : (Knapsack.sortPop limit things pop).length = pop.length :=
            (Knapsack.kSortPop_perm limit things pop).length_eq
          rw [List.length_append, List.length_take]
          omega

/-- A knapsack run that returns a solution returns one that meets the target,
found at a generation index below the remaining budget. -/
theorem kRunEvolutionGo_sound (limit : Nat) (things : List Knapsack.Thing)
    (rr : Nat → Nat → Knapsack.IterRand) (target : Nat) :
    ∀ (fuel i : Nat) (pop : List (List Nat)) (g : List Nat) (j : Nat),
      Knapsack.runEvolutionGo limit things rr target fuel i pop = some (some (g, j)) →
      target ≤ Knapsack.fitness limit things g ∧ j < i + fuel := by
  intro fuel
  induction fuel with
  | zero =>
    intro i pop g j h
    simp [Knapsack.runEvolutionGo] at h
  | succ fuel ih =>
    intro i pop g j h
    simp only [Knapsack.runEvolutionGo] at h
    split at h
    · exact absurd h (by simp)
    · rename_i g' hgen
      rw [Option.some.injEq, Option.some.injEq, Prod.mk.injEq] at h
      obtain ⟨rfl, rfl⟩ := h
      exact ⟨kGeneration_inr limit things (rr i) target pop g' hgen, by omega⟩
    · rename_i newPop hgen
      obtain ⟨h1, h2⟩ := ih (i + 1) newPop g j h
      exact ⟨h1, by omega⟩

/-- TSP `run_evolution` can never produce the explicit absence-of-solution
value: after the loop it returns `Some((first genome, 0))` unconditionally. -/
theorem tRunEvolutionGo_ne_none {α : Type} [LinearOrderedCommRing α]
    (fit : List Nat → α) (rr : Nat → Tsp.GenRand) (target : α) :
    ∀ (fuel i : Nat) (st : Tsp.State α),
      Tsp.runEvolutionGo fit rr target fuel i st ≠ some none := by
  intro fuel
  induction fuel with
  | zero =>
    intro i st
    simp only [Tsp.runEvolutionGo]
    split
    · simp
    · simp
  | succ fuel ih =>
    intro i st
    simp only [Tsp.runEvolutionGo]
    split
    · simp
    · simp
    · exact ih (i + 1) _

/-- C3 counterexample: the TSP variant breaks the claim.  With generation
limit `0` (budget exhausted immediately) and a single tour of (abstracted)
fitness `5` against target `1`, `run_evolution` returns
`Some((genome, 0))` — a genome that does NOT meet the `fitness ≤ target`
criterion — instead of the claimed `None`. -/
theorem c3_counterexample :
    Tsp.run_evolution (fun _ => (5 : Int)) (fun _ => ⟨fun _ => [], fun _ => ⟨[], 0, [], []⟩⟩)
        1 0 ⟨[[0]], 9, 0⟩ = some (some ([0], 0)) ∧ ¬ ((5 : Int) ≤ 1) := by
  decide

/-- C3 amended: the knapsack `run_evolution` behaves as claimed — it runs at
most `generation_limit` generations, returns `None` when the budget is
exhausted, and never returns a genome that does not meet the target.  The TSP
`run_evolution` keeps the generation bound but NEVER returns the explicit
absence-of-solution value: at exhaustion it returns `Some` of the current
first genome (with generation index `0`), even when that genome misses the
target. -/
theorem c3_exhaustion_signalling :
    (∀ (limit : Nat) (things : List Knapsack.Thing) (rr : Nat → Nat → Knapsack.IterRand)
        (target fuel i : Nat) (pop : List (List Nat)) (g : List Nat) (j : Nat),
        Knapsack.runEvolutionGo limit things rr target fuel i pop = some (some (g, j)) →
          target ≤ Knapsack.fitness limit things g ∧ j < i + fuel) ∧
    (∀ (limit : Nat) (things : List Knapsack.Thing) (rr : Nat → Nat → Knapsack.IterRand)
        (target i : Nat) (pop : List (List Nat)),
        Knapsack.runEvolutionGo limit things rr target 0 i pop = some none) ∧
    (∀ (fit : List Nat → Int) (rr : Nat → Tsp.GenRand) (target : Int) (fuel i : Nat)
        (st : Tsp.State Int),
        Tsp.runEvolutionGo fit rr target fuel i st ≠ some none) :=
  ⟨fun limit things rr target fuel i pop g j h =>
      kRunEvolutionGo_sound limit things rr target fuel i pop g j h,
   fun _ _ _ _ _ _ => rfl,
   fun fit rr target fuel i st => tRunEvolutionGo_ne_none fit rr target fuel i st⟩

/-- Witness for C3 (amended) at concrete inputs: a 1-genome knapsack run that
meets target 1 at generation 0 of a 1-generation budget, and a concrete TSP
run that does not produce `some none`. -/
theorem c3_exhaustion_signalling_witness :
    (1 ≤ Knapsack.fitness 1 [⟨1, 1⟩] [1] ∧ 0 < 0 + 1) ∧
    Tsp.runEvolutionGo (fun _ => (5 : Int)) (fun _ => ⟨fun _ => [], fun _ => ⟨[], 0, [], []⟩⟩)
        1 0 0 ⟨[[0]], 9, 0⟩ ≠ some none :=
  ⟨c3_exhaustion_signalling.1 1 [⟨1, 1⟩] (fun _ _ => ⟨[], 0, [], []⟩) 1 1 0 [[1]] [1] 0
      (by decide),
   c3_exhaustion_signalling.2.2 (fun _ => (5 : Int))
      (fun _ => ⟨fun _ => [], fun _ => ⟨[], 0, [], []⟩⟩) 1 0 0 ⟨[[0]], 9, 0⟩⟩

end GenRs

namespace GenRs

namespace Tsp

/-! ## TSP sorting and generation structure -/

theorem tSortPop_perm {α : Type} [LinearOrderedCommRing α] (fit : List Nat → α)
    (pop : List (List Nat)) : (sortPop fit pop).Perm pop :=
  List.perm_insertionSort _ pop

theorem tSortPop_length {α : Type} [LinearOrderedCommRing α] (fit : List Nat → α)
    (pop : List (List Nat)) : (sortPop fit pop).length = pop.length :=
  (tSortPop_perm fit pop).length_eq

theorem tSortPop_sorted {α : Type} [LinearOrderedCommRing α] (fit : List Nat → α)
    (pop : List (List Nat)) :
    List.Sorted (fun g h => fit g ≤ fit h) (sortPop fit pop) := by
  haveI : IsTotal (List Nat) (fun g h => fit g ≤ fit h) := ⟨fun a b => le_total _ _⟩
  haveI : IsTrans (List Nat) (fun g h => fit g ≤ fit h) :=
    ⟨fun a b c hab hbc => le_trans hab hbc⟩
  exact List.sorted_insertionSort _ pop

/-- The first genome of the sorted population has minimal fitness. -/
theorem tSortPop_headI_le {α : Type} [LinearOrderedCommRing α] (fit : List Nat → α)
    (pop : List (List Nat)) (g : List Nat) (hg : g ∈ pop) :
    fit ((sortPop fit pop).headI) ≤ fit g := by
  have hmem : g ∈ sortPop fit pop := (tSortPop_perm fit pop).mem_iff.mpr hg
  have hsorted := tSortPop_sorted fit pop
  cases hs : sortPop fit pop with
  | nil => rw [hs] at hmem; simp at hmem
  | cons h t =>
    rw [hs] at hmem hsorted
    rw [List.sorted_cons] at hsorted
    rcases List.mem_cons.mp hmem with rfl | hmem
    · simp
    · simpa using hsorted.1 g hmem

/-- `reset_with_best` keeps the population size: one retained best genome
plus `len - 1` fresh genomes. -/
theorem tResetWithBest_length {α : Type} [LinearOrderedCommRing α] (fit : List Nat → α)
    (fresh : Nat → List Nat) (pop : List (List Nat)) (hpop : pop ≠ []) :
    (resetWithBest fit fresh pop).length = pop.length := by
  unfold resetWithBest
  rw [tSortPop_length, List.length_append, List.length_take, List.length_map,
    List.length_range]
  have : 0 < pop.length := List.length_pos.mpr hpop
  omega

/-- Every successful iteration of the TSP child loop pushes exactly two
children. -/
theorem tChildLoop_length {α : Type} [LinearOrderedCommRing α] (fit : List Nat → α)
    (ir : Nat → IterRand) (pop : List (List Nat)) :
    ∀ (iters idx : Nat) (children : List (List Nat)),
      childLoop fit ir pop idx iters = some children →
      children.length = 2 * iters := by
  intro iters
  induction iters with
  | zero =>
    intro idx children h
    simp only [childLoop, Option.some.injEq] at h
    subst h
    rfl
  | succ iters ih =>
    intro idx children h
    simp only [childLoop] at h
    split at h
    · exact absurd h (by simp)
    · split at h
      · split at h
        · exact absurd h (by simp)
        · split at h
          · split at h
            · exact absurd h (by simp)
            · rename_i restChildren hrest
              rw [Option.some.injEq] at h
              subst h
              have := ih (idx + 1) restChildren hrest
              simp only [List.length_cons, this]
              omega
          · exact absurd h (by simp)
      · exact absurd h (by simp)

/-- Inversion of a TSP generation that produced a replacement population:
the sorted population is non-empty with first genome `g0`; the population the
children are bred from is either the sorted one or its elitist reset; the
child loop ran `⌈len/4⌉` iterations producing two children each; the next
state is the first-half elite prefix plus the children, and its stored best
is the stagnation update of the old one with `fit g0`. -/
theorem tGeneration_inl_spec {α : Type} [LinearOrderedCommRing α] (fit : List Nat → α)
    (gr : GenRand) (target : α) (st st2 : State α)
    (h : generation fit gr target st = some (Sum.inl st2)) :
    ∃ g0 pop2 children,
      (sortPop fit st.pop).head? = some g0 ∧
      (pop2 = sortPop fit st.pop ∨
        pop2 = resetWithBest fit gr.fresh (sortPop fit st.pop)) ∧
      childLoop fit gr.iter pop2 0 ((pop2.length + 3) / 4) = some children ∧
      children.length = 2 * ((pop2.length + 3) / 4) ∧
      st2.pop = pop2.take (pop2.length / 2) ++ children ∧
      st2.best = (stagnationUpdate st.best (fit g0) st.gsi).1 := by
  simp only [generation] at h
  split at h
  · exact absurd h (by simp)
  · rename_i g0 hhead
    by_cases hreset : 50 < (stagnationUpdate st.best (fit g0) st.gsi).2
    · rw [if_pos hreset, if_pos hreset] at h
      split at h
      · exact absurd h (by simp)
      · rename_i h0 hh0
        split at h
        · exact absurd h (by simp)
        · split at h
          · exact absurd h (by simp)
          · rename_i children hchild
            rw [Option.some.injEq, Sum.inl.injEq] at h
            subst h
            exact ⟨g0, _, children, hhead, Or.inr rfl, hchild,
              tChildLoop_length fit gr.iter _ _ 0 children hchild, rfl, rfl⟩
    · rw [if_neg hreset, if_neg hreset] at h
      split at h
      · exact absurd h (by simp)
      · rename_i h0 hh0
        split at h
        · exact absurd h (by simp)
        · split at h
          · exact absurd h (by simp)
          · rename_i children hchild
            rw [Option.some.injEq, Sum.inl.injEq] at h
            subst h
            exact ⟨g0, _, children, hhead, Or.inl rfl, hchild,
              tChildLoop_length fit gr.iter _ _ 0 children hchild, rfl, rfl⟩

/-- The TSP replacement population always has `⌊N/2⌋ + 2 * ⌈N/4⌉` genomes
(`N` the previous population size, which an elitist reset preserves). -/
theorem tGeneration_inl_length {α : Type} [LinearOrderedCommRing α] (fit : List Nat → α)
    (gr : GenRand) (target : α) (st st2 : State α)
    (h : generation fit gr target st = some (Sum.inl st2)) :
    st2.pop.length = st.pop.length / 2 + 2 * ((st.pop.length + 3) / 4) := by
  obtain ⟨g0, pop2, children, hhead, hpop2, hchild, hclen, hpop, hbest⟩ :=
    tGeneration_inl_spec fit gr target st st2 h
  have hsne : sortPop fit st.pop ≠ [] := by
    intro hnil
    rw [hnil] at hhead
    simp at hhead
  have hlen : pop2.length = st.pop.length := by
    rcases hpop2 with rfl | rfl
    · exact tSortPop_length fit st.pop
    · rw [tResetWithBest_length fit gr.fresh _ hsne]
      exact tSortPop_length fit st.pop
  rw [hpop, List.length_append, List.length_take, hclen, hlen]
  omega

end Tsp

/-- C7 counterexample: population size is NOT conserved by the knapsack
generation transition.  From a population of `N = 2` genomes the replacement
population (two-genome elite prefix plus two children per `⌈N/2⌉ = 1`
iteration) has `4` genomes, not `2`. -/
theorem c7_counterexample :
    (Knapsack.generation 1 [⟨1, 1⟩] (fun _ => ⟨[], 0, [(0, true)], [(0, true)]⟩) 5
        [[1], [1]]).map (Sum.map List.length id) = some (Sum.inl 4) := by
  decide

/-- C7 amended: the knapsack replacement population has `2 + 2 * ⌈N/2⌉`
genomes, which is never `N` — the population grows every generation (by two
for even `N`); the TSP replacement population has `⌊N/2⌋ + 2 * ⌈N/4⌉`
genomes, which equals `N` exactly when `N ≡ 0 or 3 (mod 4)` (the shipped
`N = 500` run conserves it); a TSP elitist reset preserves the size it
receives. -/
theorem c7_population_size_formula :
    (∀ (limit : Nat) (things : List Knapsack.Thing) (ir : Nat → Knapsack.IterRand)
        (target : Nat) (pop newPop : List (List Nat)),
        Knapsack.generation limit things ir target pop = some (Sum.inl newPop) →
          newPop.length = 2 + 2 * ((pop.length + 1) / 2)) ∧
    (∀ (fit : List Nat → Int) (gr : Tsp.GenRand) (target : Int) (st st2 : Tsp.State Int),
        Tsp.generation fit gr target st = some (Sum.inl st2) →
          st2.pop.length = st.pop.length / 2 + 2 * ((st.pop.length + 3) / 4)) ∧
    (∀ N : Nat, N / 2 + 2 * ((N + 3) / 4) = N ↔ N % 4 = 0 ∨ N % 4 = 3) ∧
    (∀ N : Nat, 2 + 2 * ((N + 1) / 2) ≠ N) :=
  ⟨fun limit things ir target pop newPop h =>
      kGeneration_inl_length limit things ir target pop newPop h,
   fun fit gr target st st2 h => Tsp.tGeneration_inl_length fit gr target st st2 h,
   fun N => by omega,
   fun N => by omega⟩

/-- Witness for C7 (amended) at concrete inputs: the 2-genome knapsack
transition yields 4 genomes, a 2-genome TSP transition yields 3, the shipped
TSP size 500 is conserved by the formula, and the knapsack formula never
conserves size 2. -/
theorem c7_population_size_formula_witness :
    ([[1], [1], [0], [0]] : List (List Nat)).length =
      2 + 2 * ((([[1], [1]] : List (List Nat)).length + 1) / 2) ∧
    (Tsp.State.pop (α := Int) ⟨[[0], [1], [0]], 0, 0⟩).length =
      (Tsp.State.pop (α := Int) ⟨[[0], [1]], 5, 0⟩).length / 2 +
        2 * (((Tsp.State.pop (α := Int) ⟨[[0], [1]], 5, 0⟩).length + 3) / 4) ∧
    (500 / 2 + 2 * ((500 + 3) / 4) = 500 ↔ 500 % 4 = 0 ∨ 500 % 4 = 3) ∧
    2 + 2 * ((2 + 1) / 2) ≠ 2 :=
  ⟨c7_population_size_formula.1 1 [⟨1, 1⟩] (fun _ => ⟨[], 0, [(0, true)], [(0, true)]⟩) 5
      [[1], [1]] [[1], [1], [0], [0]] (by decide),
   by
    have := c7_population_size_formula.2.1 (fun g => (g.headI : Int))
      ⟨fun _ => [], fun _ => ⟨[], 0, [], []⟩⟩ 0 ⟨[[0], [1]], 5, 0⟩ ⟨[[0], [1], [0]], 0, 0⟩
      (by decide)
    exact this,
   c7_population_size_formula.2.2.1 500,
   c7_population_size_formula.2.2.2 2⟩

end GenRs

namespace GenRs

/-! ## Selection weights and stagnation (C5, C8, C9) -/

theorem getLast?_mem_of_eq {β : Type} : ∀ (l : List β) (a : β), l.getLast? = some a → a ∈ l
  | [], a, h => by simp at h
  | [b], a, h => by
    simp only [List.getLast?_singleton, Option.some.injEq] at h
    simp [h]
  | b :: c :: t, a, h => by
    rw [List.getLast?_cons_cons] at h
    exact List.mem_cons_of_mem b (getLast?_mem_of_eq (c :: t) a h)

/-- In a population sorted by ascending fitness, the last genome's fitness is
maximal. -/
theorem tSorted_le_getLast {α : Type} [LinearOrderedCommRing α] (fit : List Nat → α) :
    ∀ (l : List (List Nat)), List.Sorted (fun g h => fit g ≤ fit h) l →
      ∀ (lg : List Nat), l.getLast? = some lg → ∀ g ∈ l, fit g ≤ fit lg
  | [], _, lg, hlg, _, _ => by simp at hlg
  | b :: t, hs, lg, hlg, g, hg => by
    cases t with
    | nil =>
      simp only [List.getLast?_singleton, Option.some.injEq] at hlg
      subst hlg
      rcases List.mem_singleton.mp hg with rfl
      exact le_refl _
    | cons c t' =>
      rw [List.getLast?_cons_cons] at hlg
      rw [List.sorted_cons] at hs
      rcases List.mem_cons.mp hg with rfl | hg'
      · exact hs.1 lg (getLast?_mem_of_eq (c :: t') lg hlg)
      · exact tSorted_le_getLast fit (c :: t') hs.2 lg hlg g hg'

/-- C5: in a sorted TSP population the selection weight of each genome is
`(worst fitness − its own fitness) + 1` with `worst` read from the last
(maximal-fitness) genome; of any two genomes the strictly fitter (lower
fitness) one gets the strictly larger weight; the worst genome's weight is
exactly `1`; and every weight is at least `1`, never `0`. -/
theorem c5_minimization_weight_inversion {α : Type} [LinearOrderedCommRing α]
    (fit : List Nat → α) (pop : List (List Nat)) (lg : List Nat)
    (hlast : pop.getLast? = some lg)
    (hsorted : List.Sorted (fun g h => fit g ≤ fit h) pop) :
    (∀ g1 ∈ pop, ∀ g2 ∈ pop, fit g1 < fit g2 →
        Tsp.weight fit (fit lg) g2 < Tsp.weight fit (fit lg) g1) ∧
    Tsp.weight fit (fit lg) lg = 1 ∧
    (∀ g ∈ pop, 1 ≤ Tsp.weight fit (fit lg) g) := by
  refine ⟨fun g1 _ g2 _ hlt => ?_, ?_, fun g hg => ?_⟩
  · unfold Tsp.weight
    linarith
  · unfold Tsp.weight
    ring
  · have := tSorted_le_getLast fit pop hsorted lg hlast g hg
    unfold Tsp.weight
    linarith

/-- Witness for C5 at a concrete sorted population `[[0], [1], [2]]` with
abstract fitness `headI`: the fitter genome `[0]` outweighs `[2]`, the worst
genome `[2]` has weight exactly `1`, and the middle genome's weight is
positive. -/
theorem c5_minimization_weight_inversion_witness :
    Tsp.weight (fun g => (g.headI : Int)) ((fun g => (g.headI : Int)) [2]) [2] <
      Tsp.weight (fun g => (g.headI : Int)) ((fun g => (g.headI : Int)) [2]) [0] ∧
    Tsp.weight (fun g => (g.headI : Int)) ((fun g => (g.headI : Int)) [2]) [2] = 1 ∧
    1 ≤ Tsp.weight (fun g => (g.headI : Int)) ((fun g => (g.headI : Int)) [2]) [1] :=
  ⟨(c5_minimization_weight_inversion (fun g => (g.headI : Int)) [[0], [1], [2]] [2]
      (by decide) (by decide)).1 [0] (by decide) [2] (by decide) (by decide),
   (c5_minimization_weight_inversion (fun g => (g.headI : Int)) [[0], [1], [2]] [2]
      (by decide) (by decide)).2.1,
   (c5_minimization_weight_inversion (fun g => (g.headI : Int)) [[0], [1], [2]] [2]
      (by decide) (by decide)).2.2 [1] (by decide)⟩

/-- Under the run invariant (some genome's fitness is at most the stored
best) the stagnation update keeps the minimum as the stored best. -/
theorem tStagnationUpdate_best {α : Type} [LinearOrderedCommRing α] (best f0 : α) (gsi : Nat)
    (hle : f0 ≤ best) : (Tsp.stagnationUpdate best f0 gsi).1 = f0 := by
  unfold Tsp.stagnationUpdate
  by_cases h1 : best = f0
  · simp [h1]
  · have h2 : f0 < best := lt_of_le_of_ne hle fun hx => h1 hx.symm
    simp [h1, h2]

/-- C8: in each TSP generation, after sorting — given the run invariant that
some genome's fitness is at most the stored best, which the second conjunct
shows every generation transition re-establishes — the stagnation update
yields `(new fitness, 0)` when the best-of-generation strictly improves the
stored best, and `(stored best, counter + 1)` on any generation without
strict improvement. -/
theorem c8_stagnation_counter {α : Type} [LinearOrderedCommRing α] (fit : List Nat → α)
    (pop : List (List Nat)) (best : α) (gsi : Nat)
    (hinv : ∃ g ∈ pop, fit g ≤ best) :
    Tsp.stagnationUpdate best (fit ((Tsp.sortPop fit pop).headI)) gsi =
      (if fit ((Tsp.sortPop fit pop).headI) < best
        then (fit ((Tsp.sortPop fit pop).headI), 0)
        else (best, gsi + 1)) ∧
    (∀ (gr : Tsp.GenRand) (target : α) (st2 : Tsp.State α), 2 ≤ pop.length →
        Tsp.generation fit gr target ⟨pop, best, gsi⟩ = some (Sum.inl st2) →
          st2.pop ≠ [] ∧ ∃ g ∈ st2.pop, fit g ≤ st2.best) := by
  obtain ⟨gw, hgw, hgwle⟩ := hinv
  have hf0le : fit ((Tsp.sortPop fit pop).headI) ≤ best :=
    le_trans (Tsp.tSortPop_headI_le fit pop gw hgw) hgwle
  constructor
  · by_cases hlt : fit ((Tsp.sortPop fit pop).headI) < best
    · rw [if_pos hlt]
      unfold Tsp.stagnationUpdate
      rw [if_neg (ne_of_gt hlt), if_pos hlt]
    · rw [if_neg hlt]
      have heq : best = fit ((Tsp.sortPop fit pop).headI) :=
        le_antisymm (not_lt.mp hlt) hf0le
      unfold Tsp.stagnationUpdate
      rw [if_pos heq]
  · intro gr target st2 h2n hgen
    obtain ⟨g0, pop2, children, hhead, hpop2, hchild, hclen, hpop, hbest⟩ :=
      Tsp.tGeneration_inl_spec fit gr target ⟨pop, best, gsi⟩ st2 hgen
    have hsne : Tsp.sortPop fit pop ≠ [] := by
      intro hnil
      rw [show Tsp.State.pop ⟨pop, best, gsi⟩ = pop from rfl] at hhead
      rw [hnil] at hhead
      simp at hhead
    have hheadI : (Tsp.sortPop fit pop).headI = g0 := by
      cases hs : Tsp.sortPop fit pop with
      | nil => exact absurd hs hsne
      | cons a t =>
        rw [show Tsp.State.pop ⟨pop, best, gsi⟩ = pop from rfl, hs] at hhead
        simp only [List.head?_cons, Option.some.injEq] at hhead
        simpa using hhead
    have hg0le : fit g0 ≤ best := by rw [← hheadI]; exact hf0le
    have hbest1 : st2.best = fit g0 := by
      rw [hbest]
      exact tStagnationUpdate_best best (fit g0) gsi hg0le
    have hlen : pop2.length = pop.length := by
      rcases hpop2 with rfl | rfl
      · exact Tsp.tSortPop_length fit pop
      · rw [Tsp.tResetWithBest_length fit gr.fresh _ hsne]
        exact Tsp.tSortPop_length fit pop
    have hp2ne : pop2 ≠ [] := by
      intro hnil
      rw [hnil] at hlen
      simp at hlen
      omega
    obtain ⟨p, rest, hp2⟩ := List.exists_cons_of_ne_nil hp2ne
    have hple : fit p ≤ fit g0 := by
      rcases hpop2 with rfl | rfl
      · rw [← hheadI, hp2]
        simp
      · have hg0mem : g0 ∈ (Tsp.sortPop fit pop).take 1 ++
            (List.range ((Tsp.sortPop fit pop).length - 1)).map gr.fresh := by
          apply List.mem_append_left
          cases hs : Tsp.sortPop fit pop with
          | nil => exact absurd hs hsne
          | cons a t =>
            have : a = g0 := by
              have := hheadI
              rw [hs] at this
              simpa using this
            subst this
            simp
        have := Tsp.tSortPop_headI_le fit
          ((Tsp.sortPop fit pop).take 1 ++
            (List.range ((Tsp.sortPop fit pop).length - 1)).map gr.fresh) g0 hg0mem
        rw [show Tsp.resetWithBest fit gr.fresh (Tsp.sortPop fit pop)
            = Tsp.sortPop fit ((Tsp.sortPop fit pop).take 1 ++
              (List.range ((Tsp.sortPop fit pop).length - 1)).map gr.fresh) from rfl] at hp2
        rw [hp2] at this
        simpa using this
    have hhalf : 1 ≤ pop2.length / 2 := by omega
    obtain ⟨m, hm⟩ := Nat.exists_eq_add_of_le hhalf
    have hm2 : (p :: rest).length / 2 = m + 1 := by
      rw [← hp2]
      omega
    have hpmem : p ∈ st2.pop := by
      rw [hpop, hp2, hm2]
      simp [List.take_succ_cons]
    refine ⟨List.ne_nil_of_mem hpmem, p, hpmem, ?_⟩
    rw [hbest1]
    exact hple

/-- Witness for C8 at a concrete input: population `[[0], [1]]` with
abstract fitness `headI`, stored best `5`, counter `0`: the sorted-first
fitness `0` strictly improves `5`, so the update is `(0, 0)`; and a concrete
generation transition re-establishes the invariant. -/
theorem c8_stagnation_counter_witness :
    Tsp.stagnationUpdate (5 : Int)
        ((fun g => (g.headI : Int)) ((Tsp.sortPop (fun g => (g.headI : Int)) [[0], [1]]).headI)) 0 =
      (if (fun g => (g.headI : Int)) ((Tsp.sortPop (fun g => (g.headI : Int)) [[0], [1]]).headI)
          < (5 : Int)
        then ((fun g => (g.headI : Int))
            ((Tsp.sortPop (fun g => (g.headI : Int)) [[0], [1]]).headI), 0)
        else ((5 : Int), 0 + 1)) ∧
    ((⟨[[0], [1], [0]], 0, 0⟩ : Tsp.State Int).pop ≠ [] ∧
      ∃ g ∈ (⟨[[0], [1], [0]], 0, 0⟩ : Tsp.State Int).pop,
        (fun g => (g.headI : Int)) g ≤ (⟨[[0], [1], [0]], 0, 0⟩ : Tsp.State Int).best) :=
  ⟨(c8_stagnation_counter (fun g => (g.headI : Int)) [[0], [1]] 5 0 (by decide)).1,
   (c8_stagnation_counter (fun g => (g.headI : Int)) [[0], [1]] 5 0 (by decide)).2
      ⟨fun _ => [], fun _ => ⟨[], 0, [], []⟩⟩ 0 ⟨[[0], [1], [0]], 0, 0⟩ (by decide) (by decide)⟩

/-- C9: TSP `selection` reads `worst` from the LAST genome and weights every
genome `worst − fitness + 1`.  When the last genome's fitness is maximal in
the population (the precondition `run_evolution` establishes by sorting
ascending before every selection call) every weight is at least `1` and the
unwrapped draw succeeds; on an unsorted population a weight can be negative
(an `InvalidWeight` error) and `selection` panics — witnessed concretely by
the descending population `[[5], [1]]` under fitness `headI`, whose first
genome gets weight `1 − 5 + 1 = −3`. -/
theorem c9_selection_sorted_safety :
    (∀ (fit : List Nat → Int) (pop : List (List Nat)) (lg : List Nat)
        (picks : List Nat) (size : Nat),
        pop.getLast? = some lg → (∀ g ∈ pop, fit g ≤ fit lg) →
        (∀ g ∈ pop, 1 ≤ Tsp.weight fit (fit lg) g) ∧
        ∃ l, Tsp.selection fit picks pop size = some l) ∧
    Tsp.selection (fun g => (g.headI : Int)) [] [[5], [1]] 2 = none := by
  constructor
  · intro fit pop lg picks size hlast hmax
    refine ⟨fun g hg => ?_, ?_⟩
    · have := hmax g hg
      unfold Tsp.weight
      linarith
    · obtain ⟨l, h1, _, _⟩ := tSelection_success fit picks pop size lg hlast hmax
      exact ⟨l, h1⟩
  · decide

/-- Witness for C9 at a concrete sorted population: weight at least `1` for
the first genome, and a successful draw of two parents. -/
theorem c9_selection_sorted_safety_witness :
    1 ≤ Tsp.weight (fun g => (g.headI : Int)) ((fun g => (g.headI : Int)) [1]) [0] ∧
    ∃ l, Tsp.selection (fun g => (g.headI : Int)) [] [[0], [1]] 2 = some l :=
  ⟨(c9_selection_sorted_safety.1 (fun g => (g.headI : Int)) [[0], [1]] [1] [] 2
      (by decide) (by decide)).1 [0] (by decide),
   (c9_selection_sorted_safety.1 (fun g => (g.headI : Int)) [[0], [1]] [1] [] 2
      (by decide) (by decide)).2⟩

end GenRs
